import Mathlib

/-!
# Verification of the Quantum Circuit Builder component

A shallow embedding of `src/QuantumCircuitBuilder.js`: the gate data model,
the grid-occupancy map, gate placement/removal, undo, the Python code
generator, the numeric input handlers, and the Jupyter session plumbing,
with theorems checking the natural-language description of each part.

JS numbers that flow through the UI prompts are modelled by `JSNum`
(a finite rational, NaN, or an infinity); qubit and column indices are
natural numbers, as the component's `Gate` typedef declares
(`column - time step (0..numColumns-1)`, `target - target qubit index`).
-/

namespace QCB

/-- The gate types of the palette (`GATE_PALETTE` / the `Gate` typedef). -/
inductive GateType where
  | H | X | Y | Z | S | T
  | RX | RY | RZ
  | CNOT | CZ | SWAP
  | MEASURE
deriving DecidableEq, Repr

/-- A placed gate, following the `Gate` typedef of the component:
`control` is only meaningful for CNOT/CZ, `pair` for SWAP, `angle` for
RX/RY/RZ; an absent optional field is `none` (JS `undefined`). -/
structure Gate where
  id : String
  type : GateType
  column : Nat
  target : Nat
  control : Option Nat := none
  pair : Option Nat := none
  angle : Option Rat := none
deriving DecidableEq, Repr

/-- A JS number as produced by `Number(...)` on a prompt input:
a finite rational, NaN, or an infinity. -/
inductive JSNum where
  | num (q : Rat)
  | nan
  | inf (pos : Bool)
deriving DecidableEq, Repr

/-- JS `Number.isFinite`. -/
def JSNum.isFinite : JSNum → Bool
  | .num _ => true
  | _ => false

/-- JS `Number.isInteger`. -/
def JSNum.isInteger : JSNum → Bool
  | .num q => q.den == 1
  | _ => false

/-- The rational value of a finite JS number (`0` for NaN/infinity, which
the code never extracts: it always tests finiteness first). -/
def JSNum.toRat : JSNum → Rat
  | .num q => q
  | _ => 0

/-- The occupancy-map keys a gate writes (the body of the `occupancy`
`useMemo` loop): always `(column, target)`; additionally
`(column, control)` for a CNOT/CZ with a present `control`, and
`(column, pair)` for a SWAP with a present `pair`. -/
def occupancyKeys (g : Gate) : List (Nat × Nat) :=
  [(g.column, g.target)]
    ++ (if g.type = GateType.CNOT ∨ g.type = GateType.CZ then
          match g.control with
          | some c => [(g.column, c)]
          | none => []
        else [])
    ++ (if g.type = GateType.SWAP then
          match g.pair with
          | some p => [(g.column, p)]
          | none => []
        else [])

/-- The `occupancy` map: iterate over the gates in order, each gate
overwriting the entries at its keys (`map[`col:row`] = g`); looking up
the key `(col, row)` afterwards. -/
def occupancy (gates : List Gate) (col row : Nat) : Option Gate :=
  gates.foldl
    (fun acc g => if (occupancyKeys g).contains (col, row) then some g else acc)
    none

/-- Helper `cellHasGate(row, col)`: `Boolean(occupancy[`col:row`])`. -/
def cellHasGate (gates : List Gate) (row col : Nat) : Bool :=
  (occupancy gates col row).isSome

/-- The `placeGate` handler: reject when the target cell is occupied; for CNOT/CZ,
when the control is absent or its cell is occupied; for SWAP, when the
pair is absent or its cell is occupied; otherwise append the gate.
Returns the JS boolean result together with the new gate list. -/
def placeGate (gates : List Gate) (newGate : Gate) : Bool × List Gate :=
  if cellHasGate gates newGate.target newGate.column then (false, gates)
  else if (newGate.type = GateType.CNOT ∨ newGate.type = GateType.CZ)
      ∧ newGate.control = none then (false, gates)
  else if (newGate.type = GateType.CNOT ∨ newGate.type = GateType.CZ)
      ∧ cellHasGate gates (newGate.control.getD 0) newGate.column = true then
    (false, gates)
  else if newGate.type = GateType.SWAP ∧ newGate.pair = none then (false, gates)
  else if newGate.type = GateType.SWAP
      ∧ cellHasGate gates (newGate.pair.getD 0) newGate.column = true then
    (false, gates)
  else (true, gates ++ [newGate])

/-- The `undo` handler: `prev.slice(0, -1)`. -/
def undo (gates : List Gate) : List Gate :=
  gates.dropLast

/-- The `removeGateAt(row, col)` handler: keep exactly the gates the JS filter keeps
(the nested early returns of the filter callback, in source order). -/
def removeGateAt (gates : List Gate) (row col : Nat) : List Gate :=
  gates.filter fun g =>
    if g.column ≠ col then true
    else if g.target = row then false
    else if (g.type = GateType.CNOT ∨ g.type = GateType.CZ) ∧ g.control = some row
      then false
    else if g.type = GateType.SWAP ∧ g.pair = some row then false
    else true

/-- The drop handler `handleDrop(e, row, col)`. The drag payload is `none` for an empty or
unrecognised `dataTransfer` string (both fall through without effect).
`promptIn` is the prompt outcome for the gate types that prompt:
`none` models a cancelled prompt (JS `null`), `some n` an entered string
whose `Number(...)` parse is `n`. `newId` models `uid(type)`. -/
def handleDrop (numQubits : Nat) (gates : List Gate) (ty : Option GateType)
    (row col : Nat) (promptIn : Option JSNum) (newId : String) : List Gate :=
  match ty with
  | none => gates
  | some t =>
    if [GateType.H, GateType.X, GateType.Y, GateType.Z, GateType.S, GateType.T,
        GateType.MEASURE].contains t then
      (placeGate gates { id := newId, type := t, column := col, target := row }).2
    else if [GateType.RX, GateType.RY, GateType.RZ].contains t then
      match promptIn with
      | none => gates
      | some n =>
        if n.isFinite = false then gates
        else
          (placeGate gates
            { id := newId, type := t, column := col, target := row,
              angle := some n.toRat }).2
    else if t = GateType.CNOT ∨ t = GateType.CZ then
      match promptIn with
      | none => gates
      | some n =>
        if n.isInteger = false ∨ n.toRat < 0 ∨ (numQubits : Rat) ≤ n.toRat
            ∨ n.toRat = (row : Rat) then gates
        else
          (placeGate gates
            { id := newId, type := t, column := col, target := row,
              control := some n.toRat.num.toNat }).2
    else if t = GateType.SWAP then
      match promptIn with
      | none => gates
      | some n =>
        if n.isInteger = false ∨ n.toRat < 0 ∨ (numQubits : Rat) ≤ n.toRat
            ∨ n.toRat = (row : Rat) then gates
        else
          (placeGate gates
            { id := newId, type := t, column := col, target := row,
              pair := some n.toRat.num.toNat }).2
    else gates

/-! ## The Python code generator (`generatePython`) -/

/-- The sort comparator of `generatePython`:
`(a, b) => a.column - b.column || a.target - b.target`, as the induced
"less or equal" ordering (the comparator is `≤ 0`). -/
def gateLE (a b : Gate) : Bool :=
  decide (a.column < b.column ∨ (a.column = b.column ∧ a.target ≤ b.target))

/-- The sorted copy `[...gates].sort(comparator)`: a stable sort of a copy of the gate
list by ascending column, then ascending target. -/
def sortGates (gates : List Gate) : List Gate :=
  gates.mergeSort gateLE

/-- JS template interpolation of a possibly-absent number
(`${undefined}` renders as `"undefined"`). -/
def jsShow : Option Nat → String
  | some n => toString n
  | none => "undefined"

/-- The `switch (g.type)` body of the generator loop: the operation
line(s) pushed for one gate (none for MEASURE, which is deferred, and
none in the unreachable `default` branch). -/
def gateLine (g : Gate) : List String :=
  match g.type with
  | GateType.H => [s!"qc.h({g.target})\n"]
  | GateType.X => [s!"qc.x({g.target})\n"]
  | GateType.Y => [s!"qc.y({g.target})\n"]
  | GateType.Z => [s!"qc.z({g.target})\n"]
  | GateType.S => [s!"qc.s({g.target})\n"]
  | GateType.T => [s!"qc.t({g.target})\n"]
  | GateType.RX => [s!"qc.rx({g.angle.getD 0}, {g.target})\n"]
  | GateType.RY => [s!"qc.ry({g.angle.getD 0}, {g.target})\n"]
  | GateType.RZ => [s!"qc.rz({g.angle.getD 0}, {g.target})\n"]
  | GateType.CNOT => [s!"qc.cx({jsShow g.control}, {g.target})\n"]
  | GateType.CZ => [s!"qc.cz({jsShow g.control}, {g.target})\n"]
  | GateType.SWAP => [s!"qc.swap({g.target}, {jsShow g.pair})\n"]
  | GateType.MEASURE => []

/-- The column-separator comment line. -/
def colHeader (k : Nat) : String :=
  s!"\n# --- Column {k} ---\n"

/-- The generator's main loop over the sorted gates, carrying
`currentCol` (initially `-1`): a column header is pushed whenever the
gate's column differs from `currentCol`, which is then updated. -/
def emitLoop : List Gate → Int → List String
  | [], _ => []
  | g :: rest, currentCol =>
    (if (g.column : Int) = currentCol then [] else [colHeader g.column])
      ++ gateLine g ++ emitLoop rest (g.column : Int)

/-- The per-column section of the generated code. -/
def opLines (gates : List Gate) : List String :=
  emitLoop (sortGates gates) (-1)

/-- The set `markedMeasure`, already put in the order it is emitted in:
the distinct targets of the MEASURE gates
(`new Set(sorted.filter(g => g.type === "MEASURE").map(g => g.target))`),
sorted ascending (`Array.from(markedMeasure).sort((a, b) => a - b)`).
The set's insertion order is irrelevant since the list is sorted
numerically before use; deduplication is `List.dedup`. -/
def measureTargets (gates : List Gate) : List Nat :=
  ((((sortGates gates).filter fun g => g.type = GateType.MEASURE).map
      Gate.target).dedup).mergeSort fun a b => decide (a ≤ b)

/-- The measurement section pushed after the gate loop. -/
def measurementLines (gates : List Gate) : List String :=
  "\n# Measurement\n" ::
    (if measureTargets gates ≠ [] then
      (measureTargets gates).map fun q => s!"qc.measure({q}, {q})\n"
    else ["for q in range(n_qubits):\n    qc.measure(q, q)\n"])

/-- The fixed prologue lines pushed before the gate loop. -/
def headerLines (numQubits : Nat) : List String :=
  ["# Auto-generated by Quantum Circuit Builder (React)\n",
   "# Requires: qiskit, qiskit-aer\n",
   "from qiskit import QuantumCircuit\nfrom qiskit_aer import AerSimulator\n\n",
   s!"n_qubits = {numQubits}\n",
   "qc = QuantumCircuit(n_qubits, n_qubits)\n\n"]

/-- The fixed simulation epilogue pushed last. -/
def simLines : List String :=
  ["\n# Simulate with AerSimulator\nsim = AerSimulator()\nresult = sim.run(qc, shots=1024).result()\ncounts = result.get_counts()\nprint(counts)\n"]

/-- The full generated code: `lines.join("")`. -/
def generatePythonCode (numQubits : Nat) (gates : List Gate) : String :=
  String.join
    (headerLines numQubits ++ opLines gates ++ measurementLines gates ++ simLines)

/-! ## Component state -/

/-- The state of the component that the modelled handlers read or
write: the grid dimensions, the gate list, and the two code strings. -/
structure BuilderState where
  numQubits : Nat
  numColumns : Nat
  gates : List Gate
  python : String
  notebookCode : String
deriving Repr

/-- The `generatePython` action as a state update: builds the code from the current
qubit count and gate list and stores it in `python` and `notebookCode`. -/
def generatePython (s : BuilderState) : BuilderState :=
  let code := generatePythonCode s.numQubits s.gates
  { s with python := code, notebookCode := code }

/-- The `removeGateAt` action as a state update (it only calls `setGates`). -/
def removeGateAtState (s : BuilderState) (row col : Nat) : BuilderState :=
  { s with gates := removeGateAt s.gates row col }

/-- The `clearAll` handler: empties the gate list and both code strings. -/
def clearAll (s : BuilderState) : BuilderState :=
  { s with gates := [], python := "", notebookCode := "" }

/-- The Qubits number input's `onChange` value update:
`Math.max(1, Math.min(16, Number(e.target.value)))`. -/
def qubitsInputChange (v : Rat) : Rat :=
  max 1 (min 16 v)

/-- The Columns number input's `onChange` value update:
`Math.max(1, Math.min(48, Number(e.target.value)))`. -/
def columnsInputChange (v : Rat) : Rat :=
  max 1 (min 48 v)

/-! ## Jupyter kernel plumbing -/

/-- A notebook session as the component sees it: an id and a possibly
null kernel handle. -/
structure JupyterSession where
  sessionId : String
  kernel : Option String
deriving DecidableEq, Repr

/-- One kernel execute request
(`session.kernel.requestExecute({ code, stop_on_error: true })`). -/
structure ExecuteRequest where
  code : String
  stopOnError : Bool
deriving DecidableEq, Repr

/-- The `ensureJupyterSession` helper: if the ref already holds a session with a
(truthy) kernel, return it unchanged; otherwise start a new session
(modelled by the `fresh` argument, the value `sessions.startNew(...)`
resolves to), store it in the ref and return it. The result is
(returned session, new ref contents, whether `startNew` was called). -/
def ensureJupyterSession (ref : Option JupyterSession) (fresh : JupyterSession) :
    JupyterSession × Option JupyterSession × Bool :=
  match ref with
  | some s => if s.kernel.isSome then (s, some s, false) else (fresh, some fresh, true)
  | none => (fresh, some fresh, true)

/-- The `runOnJupyter` handler: regenerates the code if `python` is falsy (note the
regenerated value lands in React state, not in the local `python`
binding), ensures a session, and submits exactly one execute request
whose code is the `python` value captured at entry. The result is
(new component state, new ref contents, submitted requests). -/
def runOnJupyter (s : BuilderState) (ref : Option JupyterSession)
    (fresh : JupyterSession) :
    BuilderState × Option JupyterSession × List ExecuteRequest :=
  let s1 := if s.python = "" then generatePython s else s
  let r := ensureJupyterSession ref fresh
  (s1, r.2.1, [{ code := s.python, stopOnError := true }])

/-! ## Reachable gate lists -/

/-- The gate lists reachable from the empty circuit through the UI
handlers: gate drops (`handleDrop`, at any qubit count), double-click
removal, `undo`, and `clearAll`. -/
inductive Reachable : List Gate → Prop where
  | empty : Reachable []
  | drop (gs : List Gate) (nq : Nat) (ty : Option GateType) (row col : Nat)
      (promptIn : Option JSNum) (newId : String) :
      Reachable gs → Reachable (handleDrop nq gs ty row col promptIn newId)
  | removeAt (gs : List Gate) (row col : Nat) :
      Reachable gs → Reachable (removeGateAt gs row col)
  | undoStep (gs : List Gate) : Reachable gs → Reachable (undo gs)
  | clear (gs : List Gate) : Reachable gs → Reachable []

/-! ## Occupancy lemmas -/

/-- A gate occupies the cell `(col, row)`: the cell is its target cell,
its control cell (a CNOT/CZ with a present control), or its pair cell
(a SWAP with a present pair). -/
def occupiesCell (g : Gate) (col row : Nat) : Prop :=
  (g.column = col ∧ g.target = row)
    ∨ ((g.type = GateType.CNOT ∨ g.type = GateType.CZ)
        ∧ g.control = some row ∧ g.column = col)
    ∨ (g.type = GateType.SWAP ∧ g.pair = some row ∧ g.column = col)

/-- The claim-side occupied-cell predicate: some gate of the list
occupies the cell. -/
def cellOccupied (gates : List Gate) (col row : Nat) : Prop :=
  ∃ g ∈ gates, occupiesCell g col row

instance (g : Gate) (col row : Nat) : Decidable (occupiesCell g col row) :=
  inferInstanceAs (Decidable (_ ∨ _ ∨ _))

instance (gates : List Gate) (col row : Nat) : Decidable (cellOccupied gates col row) :=
  inferInstanceAs (Decidable (∃ g ∈ gates, occupiesCell g col row))

/-- Claim-side rejection condition for `placeGate`: the target cell is
occupied; or the gate is a CNOT/CZ whose control is absent or whose
control cell is occupied; or a SWAP whose pair is absent or whose pair
cell is occupied. A cell is occupied when some existing gate occupies
it (`occupiesCell`). -/
def placeBlocked (gates : List Gate) (g : Gate) : Prop :=
  cellOccupied gates g.column g.target
    ∨ ((g.type = GateType.CNOT ∨ g.type = GateType.CZ)
        ∧ (g.control = none
            ∨ ∃ c, g.control = some c ∧ cellOccupied gates g.column c))
    ∨ (g.type = GateType.SWAP
        ∧ (g.pair = none
            ∨ ∃ p, g.pair = some p ∧ cellOccupied gates g.column p))

instance (gates : List Gate) (g : Gate) : Decidable (placeBlocked gates g) :=
  inferInstanceAs (Decidable (_ ∨ _ ∨ _))

/-- Claim-side removal condition for `removeGateAt(row, col)`: the gate
sits in column `col` and has `row` as its target, as its control
(CNOT/CZ), or as its pair (SWAP). -/
def removeHit (row col : Nat) (g : Gate) : Prop :=
  g.column = col
    ∧ (g.target = row
        ∨ ((g.type = GateType.CNOT ∨ g.type = GateType.CZ) ∧ g.control = some row)
        ∨ (g.type = GateType.SWAP ∧ g.pair = some row))

instance (row col : Nat) (g : Gate) : Decidable (removeHit row col g) :=
  inferInstanceAs (Decidable (_ ∧ _))

/-- Consecutive deduplication of a column list; on a column-sorted list
this yields the distinct occupied columns in ascending order. -/
def uniqueCols : List Nat → List Nat
  | [] => []
  | [k] => [k]
  | k :: k' :: rest =>
    if k = k' then uniqueCols (k' :: rest) else k :: uniqueCols (k' :: rest)

/-- Two gates occupy disjoint sets of cells. -/
def CellDisjoint (a b : Gate) : Prop :=
  ∀ c ∈ occupancyKeys a, c ∉ occupancyKeys b

/-- The grid invariant: gates pairwise occupy disjoint cells, and no
gate has its control or pair equal to its own target. -/
def GoodGates (gs : List Gate) : Prop :=
  gs.Pairwise CellDisjoint
    ∧ ∀ g ∈ gs, g.control ≠ some g.target ∧ g.pair ≠ some g.target

theorem mem_occupancyKeys {g : Gate} {col row : Nat} :
    (col, row) ∈ occupancyKeys g ↔ occupiesCell g col row := by
  unfold occupancyKeys occupiesCell
  rcases g with ⟨gid, ty, gcol, tgt, ctl, pr, ang⟩
  cases ty <;> cases ctl <;> cases pr <;>
    simp [Prod.ext_iff, eq_comm] <;> tauto

theorem occupancy_isSome_eq (gates : List Gate) (col row : Nat) :
    (occupancy gates col row).isSome
      = gates.any fun g => (occupancyKeys g).contains (col, row) := by
  suffices h : ∀ acc : Option Gate,
      (gates.foldl
          (fun acc g =>
            if (occupancyKeys g).contains (col, row) then some g else acc)
          acc).isSome
        = (acc.isSome || gates.any fun g => (occupancyKeys g).contains (col, row)) by
    simpa [occupancy] using h none
  induction gates with
  | nil => intro acc; simp
  | cons g gs ih =>
    intro acc
    rw [List.foldl_cons, ih, List.any_cons]
    by_cases hc : (col, row) ∈ occupancyKeys g <;>
      cases acc <;> simp [hc, List.contains, List.elem_iff]


theorem cellHasGate_iff {gates : List Gate} {row col : Nat} :
    cellHasGate gates row col = true ↔ cellOccupied gates col row := by
  unfold cellHasGate cellOccupied
  rw [occupancy_isSome_eq]
  simp [List.any_eq_true, List.contains, List.elem_iff, mem_occupancyKeys]

/-! ## Gate placement (claim C4) -/


theorem placeBlocked_iff (gates : List Gate) (g : Gate) :
    placeBlocked gates g ↔
      (cellHasGate gates g.target g.column = true
        ∨ ((g.type = GateType.CNOT ∨ g.type = GateType.CZ) ∧ g.control = none)
        ∨ ((g.type = GateType.CNOT ∨ g.type = GateType.CZ)
            ∧ cellHasGate gates (g.control.getD 0) g.column = true)
        ∨ (g.type = GateType.SWAP ∧ g.pair = none)
        ∨ (g.type = GateType.SWAP
            ∧ cellHasGate gates (g.pair.getD 0) g.column = true)) := by
  unfold placeBlocked
  cases hc : g.control <;> cases hp : g.pair <;>
    simp [cellHasGate_iff, hc, hp] <;> tauto

/-- C4. `placeGate` rejects (returning `false` with the list
unchanged) exactly when the new gate's target cell is occupied, or it
is a CNOT/CZ whose control cell is occupied or whose control is absent,
or a SWAP whose pair cell is occupied or whose pair is absent; in every
other case it returns `true` and appends the new gate at the end.
Occupation is by an existing gate's target, control (CNOT/CZ) or pair
(SWAP) cell. -/
theorem placeGate_spec (gates : List Gate) (g : Gate) :
    (placeBlocked gates g → placeGate gates g = (false, gates))
  ∧ (¬ placeBlocked gates g → placeGate gates g = (true, gates ++ [g])) := by
  have hiff := placeBlocked_iff gates g
  by_cases h1 : cellHasGate gates g.target g.column = true <;>
  by_cases h2 : (g.type = GateType.CNOT ∨ g.type = GateType.CZ) ∧ g.control = none <;>
  by_cases h3 : (g.type = GateType.CNOT ∨ g.type = GateType.CZ)
      ∧ cellHasGate gates (g.control.getD 0) g.column = true <;>
  by_cases h4 : g.type = GateType.SWAP ∧ g.pair = none <;>
  by_cases h5 : g.type = GateType.SWAP
      ∧ cellHasGate gates (g.pair.getD 0) g.column = true <;>
    simp [placeGate, h1, h2, h3, h4, h5, hiff]

/-- Witness for C4: a blocked placement (occupied target cell) really
returns `false` unchanged, and an unblocked one appends. -/
theorem placeGate_spec_witness :
    placeGate [{ id := "a", type := GateType.H, column := 0, target := 0 }]
        { id := "b", type := GateType.X, column := 0, target := 0 }
      = (false, [{ id := "a", type := GateType.H, column := 0, target := 0 }])
  ∧ placeGate [{ id := "a", type := GateType.H, column := 0, target := 0 }]
        { id := "b", type := GateType.X, column := 0, target := 1 }
      = (true, [{ id := "a", type := GateType.H, column := 0, target := 0 },
                { id := "b", type := GateType.X, column := 0, target := 1 }]) :=
  ⟨(placeGate_spec _ _).1 (by decide),
   (placeGate_spec _ _).2 (by decide)⟩

/-! ## Placement/undo round trip (claim C8) -/

theorem placeGate_true_snd {gates : List Gate} {g : Gate}
    (h : (placeGate gates g).1 = true) :
    (placeGate gates g).2 = gates ++ [g] := by
  unfold placeGate at h ⊢
  split_ifs at h ⊢ <;> simp_all

/-- C8. A successful `placeGate` followed by `undo` returns the
original gate list, and `undo` of the empty list is the empty list. -/
theorem placeGate_undo_roundTrip (gates : List Gate) (g : Gate)
    (h : (placeGate gates g).1 = true) :
    undo (placeGate gates g).2 = gates ∧ undo ([] : List Gate) = [] := by
  refine ⟨?_, rfl⟩
  rw [placeGate_true_snd h]
  exact List.dropLast_concat

/-- Witness for C8: placing an H gate on the empty circuit succeeds and
undoing it restores the empty circuit. -/
theorem placeGate_undo_roundTrip_witness :
    undo (placeGate [] { id := "a", type := GateType.H, column := 0, target := 0 }).2
      = [] ∧ undo ([] : List Gate) = [] :=
  placeGate_undo_roundTrip [] { id := "a", type := GateType.H, column := 0, target := 0 }
    (by decide)

/-! ## Gate removal (claim C9) -/


/-- C9. `removeGateAt(row, col)` keeps exactly the gates that do not
hit the cell (target, CNOT/CZ control, or SWAP pair at `(col, row)`),
in their original order, and leaves `numQubits`, `numColumns` and the
code strings unchanged. -/
theorem removeGateAt_spec (s : BuilderState) (row col : Nat) :
    (removeGateAtState s row col).gates
        = s.gates.filter (fun g => decide (¬ removeHit row col g))
  ∧ ((removeGateAtState s row col).gates).Sublist s.gates
  ∧ (removeGateAtState s row col).numQubits = s.numQubits
  ∧ (removeGateAtState s row col).numColumns = s.numColumns
  ∧ (removeGateAtState s row col).python = s.python
  ∧ (removeGateAtState s row col).notebookCode = s.notebookCode := by
  refine ⟨?_, ?_, rfl, rfl, rfl, rfl⟩
  · show removeGateAt s.gates row col = _
    unfold removeGateAt
    refine List.filter_congr fun g _ => ?_
    by_cases h1 : g.column = col <;> by_cases h2 : g.target = row <;>
      by_cases h3 : g.control = some row <;> by_cases h4 : g.pair = some row <;>
        cases htype : g.type <;>
          simp [removeHit, h1, h2, h3, h4, htype]
  · show (removeGateAt s.gates row col).Sublist s.gates
    exact List.filter_sublist _

/-! ## Number input clamping (claim C10) -/

/-- C10. The Qubits input handler clamps the entered value into
`[1, 16]` and the Columns input handler clamps into `[1, 48]`: the
result is in range, values below the range map to the lower bound,
values above to the upper bound, and in-range values are unchanged. -/
theorem numberInput_clamp (v w : Rat) :
    (1 ≤ qubitsInputChange v ∧ qubitsInputChange v ≤ 16
      ∧ (v < 1 → qubitsInputChange v = 1)
      ∧ (16 < v → qubitsInputChange v = 16)
      ∧ (1 ≤ v → v ≤ 16 → qubitsInputChange v = v))
  ∧ (1 ≤ columnsInputChange w ∧ columnsInputChange w ≤ 48
      ∧ (w < 1 → columnsInputChange w = 1)
      ∧ (48 < w → columnsInputChange w = 48)
      ∧ (1 ≤ w → w ≤ 48 → columnsInputChange w = w)) := by
  unfold qubitsInputChange columnsInputChange
  constructor
  · refine ⟨le_max_left _ _, max_le (by norm_num) (min_le_left _ _), ?_, ?_, ?_⟩
    · intro h
      rw [min_eq_right (by linarith : v ≤ (16 : Rat)), max_eq_left (by linarith)]
    · intro h
      rw [min_eq_left (by linarith : (16 : Rat) ≤ v), max_eq_right (by norm_num)]
    · intro h1 h2
      rw [min_eq_right h2, max_eq_right h1]
  · refine ⟨le_max_left _ _, max_le (by norm_num) (min_le_left _ _), ?_, ?_, ?_⟩
    · intro h
      rw [min_eq_right (by linarith : w ≤ (48 : Rat)), max_eq_left (by linarith)]
    · intro h
      rw [min_eq_left (by linarith : (48 : Rat) ≤ w), max_eq_right (by norm_num)]
    · intro h1 h2
      rw [min_eq_right h2, max_eq_right h1]

/-- Witness for C10: clamping at concrete entered values. -/
theorem numberInput_clamp_witness :
    qubitsInputChange 0 = 1 ∧ qubitsInputChange 20 = 16
  ∧ qubitsInputChange 3 = 3 ∧ columnsInputChange 100 = 48 :=
  ⟨((numberInput_clamp 0 0).1.2.2.1 (by norm_num)),
   ((numberInput_clamp 20 0).1.2.2.2.1 (by norm_num)),
   ((numberInput_clamp 3 0).1.2.2.2.2 (by norm_num) (by norm_num)),
   ((numberInput_clamp 0 100).2.2.2.2.1 (by norm_num))⟩

/-! ## Gate code templates (claim C1) -/

/-- C1. The generator maps each gate to its fixed code-line
template: `qc.h(t)` … `qc.t(t)` for the single-qubit gates, `qc.rx(a, t)`
(resp. `ry`, `rz`) with the gate's angle or `0` when the angle is
absent, `qc.cx(c, t)` / `qc.cz(c, t)` for a CNOT/CZ with control `c`,
and `qc.swap(t, p)` for a SWAP with pair `p`; in each case this single
line is the only operation line emitted for that gate. -/
theorem gateLine_templates (g : Gate) :
    (g.type = GateType.H → gateLine g = ["qc.h(" ++ toString g.target ++ ")\n"])
  ∧ (g.type = GateType.X → gateLine g = ["qc.x(" ++ toString g.target ++ ")\n"])
  ∧ (g.type = GateType.Y → gateLine g = ["qc.y(" ++ toString g.target ++ ")\n"])
  ∧ (g.type = GateType.Z → gateLine g = ["qc.z(" ++ toString g.target ++ ")\n"])
  ∧ (g.type = GateType.S → gateLine g = ["qc.s(" ++ toString g.target ++ ")\n"])
  ∧ (g.type = GateType.T → gateLine g = ["qc.t(" ++ toString g.target ++ ")\n"])
  ∧ (∀ a, g.type = GateType.RX → g.angle = some a →
      gateLine g = ["qc.rx(" ++ toString a ++ ", " ++ toString g.target ++ ")\n"])
  ∧ (g.type = GateType.RX → g.angle = none →
      gateLine g = ["qc.rx(" ++ toString (0 : Rat) ++ ", " ++ toString g.target ++ ")\n"])
  ∧ (∀ a, g.type = GateType.RY → g.angle = some a →
      gateLine g = ["qc.ry(" ++ toString a ++ ", " ++ toString g.target ++ ")\n"])
  ∧ (g.type = GateType.RY → g.angle = none →
      gateLine g = ["qc.ry(" ++ toString (0 : Rat) ++ ", " ++ toString g.target ++ ")\n"])
  ∧ (∀ a, g.type = GateType.RZ → g.angle = some a →
      gateLine g = ["qc.rz(" ++ toString a ++ ", " ++ toString g.target ++ ")\n"])
  ∧ (g.type = GateType.RZ → g.angle = none →
      gateLine g = ["qc.rz(" ++ toString (0 : Rat) ++ ", " ++ toString g.target ++ ")\n"])
  ∧ (∀ c, g.type = GateType.CNOT → g.control = some c →
      gateLine g = ["qc.cx(" ++ toString c ++ ", " ++ toString g.target ++ ")\n"])
  ∧ (∀ c, g.type = GateType.CZ → g.control = some c →
      gateLine g = ["qc.cz(" ++ toString c ++ ", " ++ toString g.target ++ ")\n"])
  ∧ (∀ p, g.type = GateType.SWAP → g.pair = some p →
      gateLine g = ["qc.swap(" ++ toString g.target ++ ", " ++ toString p ++ ")\n"]) := by
  refine ⟨?_, ?_, ?_, ?_, ?_, ?_, ?_, ?_, ?_, ?_, ?_, ?_, ?_, ?_, ?_⟩ <;>
    first
      | (intro a h ha; simp [gateLine, jsShow, h, ha, toString])
      | (intro h ha; simp [gateLine, jsShow, h, ha, toString])
      | (intro h; simp [gateLine, jsShow, h, toString])

/-- Witness for C1: the templates at concrete gates. -/
theorem gateLine_templates_witness :
    gateLine { id := "a", type := GateType.H, column := 0, target := 2 } = ["qc.h(2)\n"]
  ∧ gateLine { id := "b", type := GateType.RX, column := 0, target := 1, angle := some 3 } = ["qc.rx(3, 1)\n"]
  ∧ gateLine { id := "c", type := GateType.RZ, column := 0, target := 1 }
      = ["qc.rz(0, 1)\n"]
  ∧ gateLine { id := "d", type := GateType.CNOT, column := 0, target := 2, control := some 0 } = ["qc.cx(0, 2)\n"]
  ∧ gateLine { id := "e", type := GateType.SWAP, column := 0, target := 1, pair := some 2 } = ["qc.swap(1, 2)\n"] :=
  ⟨(gateLine_templates _).1 rfl,
   (gateLine_templates _).2.2.2.2.2.2.1 3 rfl rfl,
   (gateLine_templates _).2.2.2.2.2.2.2.2.2.2.2.1 rfl rfl,
   (gateLine_templates _).2.2.2.2.2.2.2.2.2.2.2.2.1 0 rfl rfl,
   (gateLine_templates _).2.2.2.2.2.2.2.2.2.2.2.2.2.2 2 rfl rfl⟩

/-! ## Invalid drop parameters (claim C5) -/

/-- C5. A drop whose prompted parameter is invalid adds no gate:
for RX/RY/RZ a cancelled prompt or an input that does not parse to a
finite number, and for CNOT/CZ/SWAP a cancelled prompt or an input that
is not an integer, is below `0`, is at or above `numQubits`, or equals
the target row, all leave the gate list unchanged. -/
theorem handleDrop_invalid (nq : Nat) (gates : List Gate) (row col : Nat)
    (newId : String) :
    (∀ t, t ∈ [GateType.RX, GateType.RY, GateType.RZ, GateType.CNOT,
        GateType.CZ, GateType.SWAP] →
      handleDrop nq gates (some t) row col none newId = gates)
  ∧ (∀ t n, t ∈ [GateType.RX, GateType.RY, GateType.RZ] → n.isFinite = false →
      handleDrop nq gates (some t) row col (some n) newId = gates)
  ∧ (∀ t n, t ∈ [GateType.CNOT, GateType.CZ, GateType.SWAP] →
      (n.isInteger = false ∨ n.toRat < 0 ∨ (nq : Rat) ≤ n.toRat
        ∨ n.toRat = (row : Rat)) →
      handleDrop nq gates (some t) row col (some n) newId = gates) := by
  refine ⟨?_, ?_, ?_⟩
  · intro t ht
    simp only [List.mem_cons, List.not_mem_nil, or_false] at ht
    rcases ht with h | h | h | h | h | h <;> subst h <;> rfl
  · intro t n ht hn
    simp only [List.mem_cons, List.not_mem_nil, or_false] at ht
    rcases ht with h | h | h <;> subst h <;> simp [handleDrop, hn]
  · intro t n ht hn
    simp only [List.mem_cons, List.not_mem_nil, or_false] at ht
    have hn' : (n.isInteger = false ∨ n.toRat < 0 ∨ (nq : Rat) ≤ n.toRat
        ∨ n.toRat = (row : Rat)) = True := eq_true hn
    rcases ht with h | h | h <;> subst h <;> simp [handleDrop, hn', hn]

/-- Witness for C5: concrete invalid drops leave a concrete list
unchanged. -/
theorem handleDrop_invalid_witness :
    handleDrop 3 [] (some GateType.RX) 0 0 none "a" = []
  ∧ handleDrop 3 [] (some GateType.RX) 0 0 (some JSNum.nan) "a" = []
  ∧ handleDrop 3 [] (some GateType.CNOT) 1 0 (some (JSNum.num 1)) "a" = [] :=
  ⟨(handleDrop_invalid 3 [] 0 0 "a").1 GateType.RX (by simp),
   (handleDrop_invalid 3 [] 0 0 "a").2.1 GateType.RX JSNum.nan (by simp) rfl,
   (handleDrop_invalid 3 [] 1 0 "a").2.2 GateType.CNOT (JSNum.num 1) (by simp)
     (by norm_num [JSNum.toRat])⟩

/-! ## Jupyter session handling (claim C7) -/

/-- C7. Session handling is a pass-through with reuse: a stored
session with a live kernel is returned as-is without starting a new
one, a second call right after any first call returns the session the
first call produced (when its kernel is live) without starting a new
one, and `runOnJupyter` submits exactly one execute request whose code
is the `python` text at entry, unchanged. -/
theorem jupyterSession_spec (ref : Option JupyterSession)
    (fresh fresh2 : JupyterSession) (s : BuilderState) :
    (∀ sess, ref = some sess → sess.kernel.isSome = true →
      ensureJupyterSession ref fresh = (sess, ref, false))
  ∧ ((ensureJupyterSession ref fresh).1.kernel.isSome = true →
      ensureJupyterSession (ensureJupyterSession ref fresh).2.1 fresh2
        = ((ensureJupyterSession ref fresh).1,
           (ensureJupyterSession ref fresh).2.1, false))
  ∧ (runOnJupyter s ref fresh).2.2 = [{ code := s.python, stopOnError := true }] := by
  refine ⟨?_, ?_, rfl⟩
  · intro sess href hk
    subst href
    simp [ensureJupyterSession, hk]
  · intro hk
    rcases ref with _ | sess
    · simp only [ensureJupyterSession] at hk ⊢
      cases hkk : fresh.kernel with
      | none => rw [hkk] at hk; simp at hk
      | some k => simp [hkk]
    · by_cases hs : sess.kernel.isSome = true
      · simp only [ensureJupyterSession] at hk ⊢
        simp [hs] at hk ⊢
      · simp only [ensureJupyterSession] at hk ⊢
        simp [hs] at hk ⊢
        cases hkk : fresh.kernel with
        | none => rw [hkk] at hk; simp at hk
        | some k => simp [hkk]

/-- Witness for C7: a stored live session is reused verbatim, and the
second call after a fresh start is idempotent. -/
theorem jupyterSession_spec_witness :
    ensureJupyterSession (some { sessionId := "s1", kernel := some "python3" })
        { sessionId := "s2", kernel := some "python3" }
      = ({ sessionId := "s1", kernel := some "python3" },
         some { sessionId := "s1", kernel := some "python3" }, false)
  ∧ ensureJupyterSession
        (ensureJupyterSession none { sessionId := "s2", kernel := some "python3" }).2.1
        { sessionId := "s3", kernel := some "python3" }
      = ({ sessionId := "s2", kernel := some "python3" },
         some { sessionId := "s2", kernel := some "python3" }, false) :=
  ⟨(jupyterSession_spec (some { sessionId := "s1", kernel := some "python3" })
      { sessionId := "s2", kernel := some "python3" }
      { sessionId := "s2", kernel := some "python3" }
      { numQubits := 3, numColumns := 12, gates := [], python := "",
        notebookCode := "" }).1 _ rfl rfl,
   (jupyterSession_spec none { sessionId := "s2", kernel := some "python3" }
      { sessionId := "s3", kernel := some "python3" }
      { numQubits := 3, numColumns := 12, gates := [], python := "",
        notebookCode := "" }).2.1 rfl⟩

/-! ## Measurement section (claim C2) -/

/-- C2. MEASURE gates emit no operation line in the per-column
section; the measurement section instead emits one `qc.measure(q, q)`
line per distinct MEASURE target `q`, each exactly once and in
ascending order, and when no MEASURE gate is present it emits the loop
measuring every qubit into its classical bit. -/
theorem measurement_spec (gates : List Gate) :
    (∀ g : Gate, g.type = GateType.MEASURE → gateLine g = [])
  ∧ (measureTargets gates).Nodup
  ∧ (measureTargets gates).Pairwise (fun a b => a < b)
  ∧ (∀ q, q ∈ measureTargets gates ↔
      ∃ g ∈ gates, g.type = GateType.MEASURE ∧ g.target = q)
  ∧ ((∃ g ∈ gates, g.type = GateType.MEASURE) →
      measurementLines gates = "\n# Measurement\n" ::
        (measureTargets gates).map
          (fun q => "qc.measure(" ++ toString q ++ ", " ++ toString q ++ ")\n"))
  ∧ ((¬ ∃ g ∈ gates, g.type = GateType.MEASURE) →
      measurementLines gates
        = ["\n# Measurement\n", "for q in range(n_qubits):\n    qc.measure(q, q)\n"]) := by
  have hmem : ∀ q, q ∈ measureTargets gates ↔
      ∃ g ∈ gates, g.type = GateType.MEASURE ∧ g.target = q := by
    intro q
    simp only [measureTargets, sortGates, List.mem_mergeSort, List.mem_dedup,
      List.mem_map, List.mem_filter]
    constructor
    · rintro ⟨g, ⟨hg, ht⟩, rfl⟩
      exact ⟨g, hg, by simpa using ht, rfl⟩
    · rintro ⟨g, hg, ht, rfl⟩
      exact ⟨g, ⟨hg, by simpa using ht⟩, rfl⟩
  have hnodup : (measureTargets gates).Nodup :=
    (List.mergeSort_perm _ _).symm.nodup (List.nodup_dedup _)
  refine ⟨?_, hnodup, ?_, hmem, ?_, ?_⟩
  · intro g h
    simp [gateLine, h]
  · have hs : (measureTargets gates).Pairwise (fun a b => a ≤ b) := by
      have := @List.sorted_mergeSort Nat
        (fun a b : Nat => decide (a ≤ b))
        (fun a b c hab hbc => by
          simp only [decide_eq_true_eq] at hab hbc ⊢; omega)
        (fun a b => by simp [Nat.le_total])
        ((((sortGates gates).filter fun g => g.type = GateType.MEASURE).map
            Gate.target).dedup)
      exact this.imp fun h => of_decide_eq_true h
    exact List.Sorted.lt_of_le hs hnodup
  · intro hex
    have hne : measureTargets gates ≠ [] := by
      rcases hex with ⟨g, hg, ht⟩
      intro h0
      have : g.target ∈ measureTargets gates := (hmem g.target).2 ⟨g, hg, ht, rfl⟩
      simp [h0] at this
    simp [measurementLines, hne]
    intro a _
    rfl
  · intro hex
    have h0 : measureTargets gates = [] := by
      cases h : measureTargets gates with
      | nil => rfl
      | cons a l =>
        exfalso
        have : a ∈ measureTargets gates := by rw [h]; exact List.mem_cons_self a l
        obtain ⟨g, hg, ht, _⟩ := (hmem a).1 this
        exact hex ⟨g, hg, ht⟩
    simp [measurementLines, h0]

/-- Witness for C2: a circuit with MEASURE gates on qubits 1 and 0 (one
of them twice) measures exactly 0 and 1 in ascending order; a circuit
without MEASURE gates gets the measure-all loop. -/
theorem measurement_spec_witness :
    measurementLines
        [{ id := "a", type := GateType.MEASURE, column := 0, target := 1 },
         { id := "b", type := GateType.MEASURE, column := 1, target := 0 },
         { id := "c", type := GateType.MEASURE, column := 2, target := 1 }]
      = ["\n# Measurement\n", "qc.measure(0, 0)\n", "qc.measure(1, 1)\n"]
  ∧ measurementLines [{ id := "d", type := GateType.H, column := 0, target := 0 }]
      = ["\n# Measurement\n", "for q in range(n_qubits):\n    qc.measure(q, q)\n"] := by
  constructor
  · rw [(measurement_spec _).2.2.2.2.1 ⟨_, List.mem_cons_self _ _, rfl⟩]
    simp +decide [measureTargets, sortGates, List.mergeSort]
  · exact (measurement_spec _).2.2.2.2.2 (by decide)

/-! ## Column grouping of the generator loop (claim C3) -/


theorem uniqueCols_subset : ∀ (l : List Nat) (k : Nat), k ∈ uniqueCols l → k ∈ l := by
  intro l
  induction l with
  | nil => intro k h; simp [uniqueCols] at h
  | cons a rest ih =>
    intro k h
    cases rest with
    | nil => simpa [uniqueCols] using h
    | cons b rest2 =>
      simp only [uniqueCols] at h
      by_cases hab : a = b
      · rw [if_pos hab] at h
        exact List.mem_cons_of_mem a (ih k h)
      · rw [if_neg hab] at h
        rcases List.mem_cons.1 h with rfl | h2
        · exact List.mem_cons_self _ _
        · exact List.mem_cons_of_mem a (ih k h2)

theorem uniqueCols_sorted : ∀ l : List Nat, l.Pairwise (fun a b => a ≤ b) →
    (uniqueCols l).Pairwise (fun a b => a < b)
      ∧ ∀ k, k ∈ uniqueCols l ↔ k ∈ l := by
  intro l
  induction l with
  | nil => intro _; exact ⟨List.Pairwise.nil, by simp [uniqueCols]⟩
  | cons a rest ih =>
    intro hp
    rcases List.pairwise_cons.1 hp with ⟨hale, hrest⟩
    cases rest with
    | nil =>
      exact ⟨by simp [uniqueCols], by simp [uniqueCols]⟩
    | cons b rest2 =>
      have ihr := ih hrest
      by_cases hab : a = b
      · refine ⟨?_, ?_⟩
        · simpa only [uniqueCols, if_pos hab] using ihr.1
        · intro k
          simp only [uniqueCols, if_pos hab]
          rw [ihr.2 k]
          subst hab
          simp only [List.mem_cons]
          tauto
      · refine ⟨?_, ?_⟩
        · simp only [uniqueCols, if_neg hab]
          refine List.pairwise_cons.2 ⟨?_, ihr.1⟩
          intro x hx
          have hxmem : x ∈ b :: rest2 := uniqueCols_subset _ x hx
          rcases List.mem_cons.1 hxmem with rfl | hx2
          · exact lt_of_le_of_ne (hale x (List.mem_cons_self _ _)) hab
          · have hbx : b ≤ x := (List.pairwise_cons.1 hrest).1 x hx2
            have hax : a ≤ b := hale b (List.mem_cons_self _ _)
            omega
        · intro k
          simp only [uniqueCols, if_neg hab, List.mem_cons]
          rw [ihr.2 k]
          simp [List.mem_cons]

theorem uniqueCols_cons_group (c : Nat) :
    ∀ l1 l2 : List Nat, (∀ x ∈ l1, x = c) → (∀ x ∈ l2, c < x) →
    uniqueCols (c :: (l1 ++ l2)) = c :: uniqueCols l2 := by
  intro l1
  induction l1 with
  | nil =>
    intro l2 _ h2
    cases l2 with
    | nil => rfl
    | cons d tl =>
      have hcd : c ≠ d := Nat.ne_of_lt (h2 d (List.mem_cons_self _ _))
      simp only [List.nil_append, uniqueCols, if_neg hcd]
  | cons e l1' ih =>
    intro l2 h1 h2
    have hec : e = c := h1 e (List.mem_cons_self _ _)
    subst hec
    show uniqueCols (e :: e :: (l1' ++ l2)) = e :: uniqueCols l2
    simp only [uniqueCols, if_pos rfl]
    exact ih l2 (fun x hx => h1 x (List.mem_cons_of_mem _ hx)) h2

theorem dropWhile_head_false {α : Type} (p : α → Bool) :
    ∀ (l : List α) (y : α) (tl : List α), l.dropWhile p = y :: tl → p y = false := by
  intro l
  induction l with
  | nil => intro y tl h; simp [List.dropWhile] at h
  | cons a l ih =>
    intro y tl h
    rw [List.dropWhile_cons] at h
    by_cases hp : p a = true
    · rw [if_pos hp] at h
      exact ih y tl h
    · rw [if_neg hp] at h
      simp only [Bool.not_eq_true] at hp
      cases h
      exact hp

theorem dropWhile_beq_lt (c : Nat) (l : List Gate)
    (hle : ∀ a ∈ l, c ≤ a.column)
    (hp : l.Pairwise (fun a b => a.column ≤ b.column)) :
    ∀ x ∈ l.dropWhile (fun g => g.column == c), c < x.column := by
  cases hd : l.dropWhile (fun g => g.column == c) with
  | nil => intro x hx; exact absurd hx (by simp)
  | cons y tl =>
    have hy : (fun g : Gate => g.column == c) y = false :=
      dropWhile_head_false _ l y tl hd
    have hyne : y.column ≠ c := by simpa using hy
    have hymem : y ∈ l :=
      (List.dropWhile_sublist _).subset (hd ▸ List.mem_cons_self y tl)
    have hylt : c < y.column := lt_of_le_of_ne (hle y hymem) (Ne.symm hyne)
    have hsubp : (l.dropWhile (fun g => g.column == c)).Pairwise
        (fun a b => a.column ≤ b.column) :=
      List.Pairwise.sublist (List.dropWhile_sublist _) hp
    rw [hd] at hsubp
    intro x hx
    rcases List.mem_cons.1 hx with rfl | hx2
    · exact hylt
    · have := (List.pairwise_cons.1 hsubp).1 x hx2
      omega

theorem emitLoop_sameCol (k : Nat) :
    ∀ pre rest : List Gate, (∀ g ∈ pre, g.column = k) →
    emitLoop (pre ++ rest) (k : Int) = pre.flatMap gateLine ++ emitLoop rest (k : Int) := by
  intro pre
  induction pre with
  | nil => intro rest _; simp
  | cons g pre' ih =>
    intro rest h
    have hgk : g.column = k := h g (List.mem_cons_self _ _)
    simp only [List.cons_append, emitLoop, hgk, List.flatMap_cons, List.append_eq,
      eq_self_iff_true, if_true, List.nil_append]
    rw [ih rest (fun x hx => h x (List.mem_cons_of_mem _ hx))]
    simp [List.append_assoc]

theorem emitLoop_grouped_aux :
    ∀ (n : Nat) (gs : List Gate) (c0 : Int), gs.length ≤ n →
    gs.Pairwise (fun a b => a.column ≤ b.column) →
    (∀ g ∈ gs, (g.column : Int) ≠ c0) →
    emitLoop gs c0
      = (uniqueCols (gs.map Gate.column)).flatMap
          (fun k => colHeader k
            :: (gs.filter fun g => g.column == k).flatMap gateLine) := by
  intro n
  induction n with
  | zero =>
    intro gs c0 hlen _ _
    have hnil : gs = [] := List.length_eq_zero.1 (Nat.le_zero.1 hlen)
    subst hnil
    rfl
  | succ n ih =>
    intro gs c0 hlen hsort hc0
    cases gs with
    | nil => rfl
    | cons g rest =>
      rcases List.pairwise_cons.1 hsort with ⟨hgle, hrestp⟩
      have hsplit : rest.takeWhile (fun x => x.column == g.column)
            ++ rest.dropWhile (fun x => x.column == g.column) = rest :=
        List.takeWhile_append_dropWhile _ _
      set pre := rest.takeWhile (fun x => x.column == g.column) with hpre_def
      set suf := rest.dropWhile (fun x => x.column == g.column) with hsuf_def
      have hpre : ∀ x ∈ pre, x.column = g.column := by
        intro x hx
        have := List.mem_takeWhile_imp hx
        simpa using this
      have hsufp : suf.Pairwise (fun a b => a.column ≤ b.column) :=
        List.Pairwise.sublist (List.dropWhile_sublist _) hrestp
      have hsuflt : ∀ x ∈ suf, g.column < x.column :=
        dropWhile_beq_lt g.column rest hgle hrestp
      have hsuflen : suf.length ≤ n := by
        have h1 : suf.length ≤ rest.length := (List.dropWhile_sublist _).length_le
        have h2 : rest.length + 1 ≤ n + 1 := by simpa using hlen
        omega
      have hih := ih suf (g.column : Int) hsuflen hsufp
        (by
          intro x hx hcast
          have hxx : x.column = g.column := by exact_mod_cast hcast
          have := hsuflt x hx
          omega)
      have hmap : (g :: rest).map Gate.column
          = g.column :: (pre.map Gate.column ++ suf.map Gate.column) := by
        conv_lhs => rw [← hsplit]
        simp [List.map_append]
      have huc : uniqueCols ((g :: rest).map Gate.column)
          = g.column :: uniqueCols (suf.map Gate.column) := by
        rw [hmap]
        refine uniqueCols_cons_group g.column _ _ ?_ ?_
        · intro x hx
          rcases List.mem_map.1 hx with ⟨a, ha, rfl⟩
          exact hpre a ha
        · intro x hx
          rcases List.mem_map.1 hx with ⟨a, ha, rfl⟩
          exact hsuflt a ha
      have hfil_head : (g :: rest).filter (fun x => x.column == g.column)
          = g :: pre := by
        conv_lhs => rw [← hsplit]
        rw [List.filter_cons_of_pos (by simp), List.filter_append,
          List.filter_eq_self.2 (by intro a ha; simpa using hpre a ha),
          List.filter_eq_nil_iff.2
            (by intro a ha; have := hsuflt a ha; simp; omega),
          List.append_nil]
      have hfil_k : ∀ k, g.column < k →
          (g :: rest).filter (fun x => x.column == k)
            = suf.filter (fun x => x.column == k) := by
        intro k hk
        conv_lhs => rw [← hsplit]
        rw [List.filter_cons_of_neg (by simp; omega), List.filter_append,
          List.filter_eq_nil_iff.2
            (by intro a ha; have := hpre a ha; simp; omega),
          List.nil_append]
      have hstep : emitLoop (g :: rest) c0
          = colHeader g.column :: (gateLine g
              ++ (pre.flatMap gateLine ++ emitLoop suf (g.column : Int))) := by
        simp only [emitLoop, if_neg (hc0 g (List.mem_cons_self _ _))]
        conv_lhs => rw [← hsplit]
        rw [emitLoop_sameCol g.column pre suf hpre]
        simp [List.append_assoc]
      rw [hstep, huc, List.flatMap_cons, hfil_head, hih]
      rw [List.flatMap_congr (l := uniqueCols (suf.map Gate.column))
        (f := fun k => colHeader k
          :: ((g :: rest).filter fun g => g.column == k).flatMap gateLine)
        (g := fun k => colHeader k
          :: (suf.filter fun g => g.column == k).flatMap gateLine)
        (by
          intro k hkmem
          have hk : k ∈ suf.map Gate.column := uniqueCols_subset _ k hkmem
          rcases List.mem_map.1 hk with ⟨a, ha, rfl⟩
          simp only [hfil_k a.column (hsuflt a ha)])]
      simp [List.flatMap_cons, List.append_assoc]

theorem gateLE_trans : ∀ a b c : Gate,
    gateLE a b = true → gateLE b c = true → gateLE a c = true := by
  intro a b c hab hbc
  simp only [gateLE, decide_eq_true_eq] at hab hbc ⊢
  omega

theorem gateLE_total : ∀ a b : Gate, (gateLE a b || gateLE b a) = true := by
  intro a b
  simp only [gateLE, Bool.or_eq_true, decide_eq_true_eq]
  omega

theorem sortGates_pairwise (gates : List Gate) :
    (sortGates gates).Pairwise
      (fun a b => a.column < b.column ∨ (a.column = b.column ∧ a.target ≤ b.target)) := by
  have := @List.sorted_mergeSort Gate gateLE gateLE_trans gateLE_total gates
  exact this.imp fun h => by
    have := of_decide_eq_true h
    exact this

/-- C3. The generator emits the gates sorted by ascending column
with ties broken by ascending target (the sorted copy is a permutation
of the gate list), and the per-column section is, per distinct occupied
column in order, one `# --- Column k ---` header followed by that
column's gate lines; the gate list itself is unchanged by generation. -/
theorem generate_order_spec (st : BuilderState) :
    (sortGates st.gates).Perm st.gates
  ∧ (sortGates st.gates).Pairwise
      (fun a b => a.column < b.column ∨ (a.column = b.column ∧ a.target ≤ b.target))
  ∧ (uniqueCols ((sortGates st.gates).map Gate.column)).Nodup
  ∧ (∀ k, k ∈ uniqueCols ((sortGates st.gates).map Gate.column) ↔
      ∃ g ∈ st.gates, g.column = k)
  ∧ opLines st.gates
      = (uniqueCols ((sortGates st.gates).map Gate.column)).flatMap
          (fun k => colHeader k
            :: ((sortGates st.gates).filter fun g => g.column == k).flatMap gateLine)
  ∧ (generatePython st).gates = st.gates := by
  have hperm : (sortGates st.gates).Perm st.gates := List.mergeSort_perm _ _
  have hpair := sortGates_pairwise st.gates
  have hcolpair : (sortGates st.gates).Pairwise (fun a b => a.column ≤ b.column) :=
    hpair.imp fun h => by omega
  have hmappair : ((sortGates st.gates).map Gate.column).Pairwise
      (fun a b => a ≤ b) := List.pairwise_map.2 hcolpair
  have huniq := uniqueCols_sorted _ hmappair
  refine ⟨hperm, hpair, ?_, ?_, ?_, rfl⟩
  · exact (huniq.1.imp fun h => Nat.ne_of_lt h)
  · intro k
    rw [huniq.2 k]
    constructor
    · intro hk
      rcases List.mem_map.1 hk with ⟨a, ha, rfl⟩
      exact ⟨a, hperm.subset ha, rfl⟩
    · rintro ⟨a, ha, rfl⟩
      exact List.mem_map.2 ⟨a, hperm.symm.subset ha, rfl⟩
  · show emitLoop (sortGates st.gates) (-1) = _
    refine emitLoop_grouped_aux (sortGates st.gates).length _ _ le_rfl hcolpair ?_
    intro g _ hcast
    omega

/-! ## Occupancy invariant of reachable circuits (claim C6) -/


theorem placeGate_snd_eq (gs : List Gate) (g : Gate) :
    (placeGate gs g).2 = gs ∨
    ((placeGate gs g).2 = gs ++ [g]
      ∧ ∀ c ∈ occupancyKeys g, ¬ cellOccupied gs c.1 c.2) := by
  by_cases hb : placeBlocked gs g
  · left
    rw [(placeGate_spec gs g).1 hb]
  · right
    rw [(placeGate_spec gs g).2 hb]
    refine ⟨rfl, ?_⟩
    rintro ⟨c1, c2⟩ hc hocc
    apply hb
    rcases mem_occupancyKeys.1 hc with ⟨hcol, htgt⟩ | ⟨hty, hctl, hcol⟩
        | ⟨hty, hpr, hcol⟩
    · exact Or.inl (hcol ▸ htgt ▸ hocc)
    · exact Or.inr (Or.inl ⟨hty, Or.inr ⟨c2, hctl, hcol ▸ hocc⟩⟩)
    · exact Or.inr (Or.inr ⟨hty, Or.inr ⟨c2, hpr, hcol ▸ hocc⟩⟩)

theorem validOther_ne_row (n : JSNum) (nq row : Nat)
    (h : ¬(n.isInteger = false ∨ n.toRat < 0 ∨ (nq : Rat) ≤ n.toRat
      ∨ n.toRat = (row : Rat))) :
    n.toRat.num.toNat ≠ row := by
  push_neg at h
  obtain ⟨hint, hge, _, hne⟩ := h
  have hint' : n.isInteger = true := by
    cases hbi : n.isInteger
    · exact absurd hbi hint
    · rfl
  have hnum : (0 : Int) ≤ n.toRat.num := Rat.num_nonneg.2 hge
  have hden : n.toRat.den = 1 := by
    cases n with
    | num q => simpa [JSNum.isInteger, JSNum.toRat] using hint'
    | nan => simp [JSNum.isInteger] at hint'
    | inf b => simp [JSNum.isInteger] at hint'
  intro heq
  apply hne
  have hq : n.toRat.num = (row : Int) := by omega
  calc n.toRat = (n.toRat.num : Rat) := ((Rat.den_eq_one_iff _).1 hden).symm
    _ = (row : Rat) := by rw [hq]; push_cast; ring

theorem handleDrop_cases (nq : Nat) (gs : List Gate) (ty : Option GateType)
    (row col : Nat) (promptIn : Option JSNum) (newId : String) :
    handleDrop nq gs ty row col promptIn newId = gs
    ∨ ∃ g', handleDrop nq gs ty row col promptIn newId = (placeGate gs g').2
        ∧ g'.control ≠ some g'.target ∧ g'.pair ≠ some g'.target := by
  cases ty with
  | none => exact Or.inl rfl
  | some t =>
    cases t with
    | H => exact Or.inr ⟨_, rfl, by simp, by simp⟩
    | X => exact Or.inr ⟨_, rfl, by simp, by simp⟩
    | Y => exact Or.inr ⟨_, rfl, by simp, by simp⟩
    | Z => exact Or.inr ⟨_, rfl, by simp, by simp⟩
    | S => exact Or.inr ⟨_, rfl, by simp, by simp⟩
    | T => exact Or.inr ⟨_, rfl, by simp, by simp⟩
    | MEASURE => exact Or.inr ⟨_, rfl, by simp, by simp⟩
    | RX =>
      cases promptIn with
      | none => exact Or.inl rfl
      | some n =>
        by_cases hf : n.isFinite = false
        · left
          show (if n.isFinite = false then gs else _) = gs
          rw [if_pos hf]
        · right
          refine ⟨{ id := newId, type := GateType.RX, column := col, target := row, angle := some n.toRat }, ?_, ?_, ?_⟩
          · show (if n.isFinite = false then gs else _) = _
            rw [if_neg hf]
          · simp
          · simp
    | RY =>
      cases promptIn with
      | none => exact Or.inl rfl
      | some n =>
        by_cases hf : n.isFinite = false
        · left
          show (if n.isFinite = false then gs else _) = gs
          rw [if_pos hf]
        · right
          refine ⟨{ id := newId, type := GateType.RY, column := col, target := row, angle := some n.toRat }, ?_, ?_, ?_⟩
          · show (if n.isFinite = false then gs else _) = _
            rw [if_neg hf]
          · simp
          · simp
    | RZ =>
      cases promptIn with
      | none => exact Or.inl rfl
      | some n =>
        by_cases hf : n.isFinite = false
        · left
          show (if n.isFinite = false then gs else _) = gs
          rw [if_pos hf]
        · right
          refine ⟨{ id := newId, type := GateType.RZ, column := col, target := row, angle := some n.toRat }, ?_, ?_, ?_⟩
          · show (if n.isFinite = false then gs else _) = _
            rw [if_neg hf]
          · simp
          · simp
    | CNOT =>
      cases promptIn with
      | none => exact Or.inl rfl
      | some n =>
        by_cases hv : n.isInteger = false ∨ n.toRat < 0 ∨ (nq : Rat) ≤ n.toRat
            ∨ n.toRat = (row : Rat)
        · left
          show (if n.isInteger = false ∨ _ then gs else _) = gs
          rw [if_pos hv]
        · right
          refine ⟨{ id := newId, type := GateType.CNOT, column := col, target := row, control := some n.toRat.num.toNat }, ?_, ?_, ?_⟩
          · show (if n.isInteger = false ∨ _ then gs else _) = _
            rw [if_neg hv]
          · simpa using validOther_ne_row n nq row hv
          · simp
    | CZ =>
      cases promptIn with
      | none => exact Or.inl rfl
      | some n =>
        by_cases hv : n.isInteger = false ∨ n.toRat < 0 ∨ (nq : Rat) ≤ n.toRat
            ∨ n.toRat = (row : Rat)
        · left
          show (if n.isInteger = false ∨ _ then gs else _) = gs
          rw [if_pos hv]
        · right
          refine ⟨{ id := newId, type := GateType.CZ, column := col, target := row, control := some n.toRat.num.toNat }, ?_, ?_, ?_⟩
          · show (if n.isInteger = false ∨ _ then gs else _) = _
            rw [if_neg hv]
          · simpa using validOther_ne_row n nq row hv
          · simp
    | SWAP =>
      cases promptIn with
      | none => exact Or.inl rfl
      | some n =>
        by_cases hv : n.isInteger = false ∨ n.toRat < 0 ∨ (nq : Rat) ≤ n.toRat
            ∨ n.toRat = (row : Rat)
        · left
          show (if n.isInteger = false ∨ _ then gs else _) = gs
          rw [if_pos hv]
        · right
          refine ⟨{ id := newId, type := GateType.SWAP, column := col, target := row, pair := some n.toRat.num.toNat }, ?_, ?_, ?_⟩
          · show (if n.isInteger = false ∨ _ then gs else _) = _
            rw [if_neg hv]
          · simp
          · simpa using validOther_ne_row n nq row hv

theorem GoodGates_place (gs : List Gate) (g : Gate)
    (hgood : GoodGates gs) (hc : g.control ≠ some g.target)
    (hp : g.pair ≠ some g.target) :
    GoodGates (placeGate gs g).2 := by
  rcases placeGate_snd_eq gs g with h | ⟨h, hkeys⟩
  · rw [h]; exact hgood
  · rw [h]
    constructor
    · rw [List.pairwise_append]
      refine ⟨hgood.1, List.pairwise_singleton _ _, ?_⟩
      intro a ha b hb
      rcases List.mem_singleton.1 hb with rfl
      rintro ⟨c1, c2⟩ hca hcb
      exact hkeys (c1, c2) hcb ⟨a, ha, mem_occupancyKeys.1 hca⟩
    · intro x hx
      rcases List.mem_append.1 hx with hx | hx
      · exact hgood.2 x hx
      · rcases List.mem_singleton.1 hx with rfl
        exact ⟨hc, hp⟩

theorem GoodGates_sublist {gs gs' : List Gate} (h : gs'.Sublist gs)
    (hg : GoodGates gs) : GoodGates gs' :=
  ⟨List.Pairwise.sublist h hg.1, fun g hgm => hg.2 g (h.subset hgm)⟩

theorem reachable_goodGates (gs : List Gate) (h : Reachable gs) : GoodGates gs := by
  induction h with
  | empty => exact ⟨List.Pairwise.nil, by simp⟩
  | drop gs' nq ty row col promptIn newId _ ihg =>
    rcases handleDrop_cases nq gs' ty row col promptIn newId with heq | ⟨g', heq, hc, hp⟩
    · rw [heq]; exact ihg
    · rw [heq]; exact GoodGates_place gs' g' ihg hc hp
  | removeAt gs' row col _ ihg =>
    exact GoodGates_sublist (List.filter_sublist _) ihg
  | undoStep gs' _ ihg => exact GoodGates_sublist (List.dropLast_sublist _) ihg
  | clear gs' _ _ => exact ⟨List.Pairwise.nil, by simp⟩

/-- C6. In every gate list reachable from the empty circuit through
the UI handlers, no two gates occupy a common cell (a gate occupies its
target cell, plus its control cell for CNOT/CZ and its pair cell for
SWAP), and no gate's control or pair equals its own target. -/
theorem reachable_no_overlap (gs : List Gate) (h : Reachable gs) :
    gs.Pairwise
      (fun a b => ∀ col row : Nat,
        ¬(occupiesCell a col row ∧ occupiesCell b col row))
  ∧ ∀ g ∈ gs, g.control ≠ some g.target ∧ g.pair ≠ some g.target := by
  have hg := reachable_goodGates gs h
  refine ⟨hg.1.imp ?_, hg.2⟩
  intro a b hab
  intro col row hocc
  exact hab (col, row) (mem_occupancyKeys.2 hocc.1) (mem_occupancyKeys.2 hocc.2)

/-- Witness for C6: the invariant at a concrete reachable circuit (an H
gate dropped on the empty grid). -/
theorem reachable_no_overlap_witness :
    (handleDrop 3 [] (some GateType.H) 0 0 none "a").Pairwise
      (fun a b => ∀ col row : Nat,
        ¬(occupiesCell a col row ∧ occupiesCell b col row))
  ∧ ∀ g ∈ handleDrop 3 [] (some GateType.H) 0 0 none "a",
      g.control ≠ some g.target ∧ g.pair ≠ some g.target :=
  reachable_no_overlap _
    (Reachable.drop [] 3 (some GateType.H) 0 0 none "a" Reachable.empty)

end QCB
